import Mathlib

/-!
Formal model of the medication-resolution core of `api.py` from the
`prescription-api` repository.  Strings are modelled as `List Char`
(Python `str`), Python floats as `ℚ` (exact rational arithmetic; the
double-rounding of IEEE floats is noted where it could matter), and
fallible code as `Option`.  The fuzzy scorers come from the `thefuzz`
library (backed by `rapidfuzz`); they are modelled from their documented
semantics: `fuzz.ratio` is the normalized indel similarity
`200 * lcs(a,b) / (|a| + |b|)`, the token scorers are the classic
token-sort / token-set constructions, and `process.extractOne`
preprocesses both sides with the default processor and keeps the first
choice attaining the maximal score.
-/

set_option maxRecDepth 1000000

namespace PrescriptionApi

/-- Python `str.lower` restricted to ASCII: the inputs the claims are
about are ASCII, and every non-ASCII character is replaced by a space by
the normalizer's character filter anyway. -/
def pyLower (c : Char) : Char :=
  if 65 ≤ c.toNat ∧ c.toNat ≤ 90 then Char.ofNat (c.toNat + 32) else c

def isDigitC (c : Char) : Bool := 48 ≤ c.toNat && c.toNat ≤ 57

def isLowerC (c : Char) : Bool := 97 ≤ c.toNat && c.toNat ≤ 122

/-- ASCII whitespace, as matched by Python's `\s` and `str.strip`. -/
def isPySpace (c : Char) : Bool :=
  c == ' ' || c == '\t' || c == '\n' || c == '\x0d' || c == '\x0b' || c == '\x0c'

/-- The character class kept by `re.sub(r'[^a-z0-9. ]', ' ', s)` in
`normalize_string` (note: the dot and the space are kept). -/
def isKeptC (c : Char) : Bool :=
  isLowerC c || isDigitC c || c == '.' || c == ' '

/-- Fuelled worker for `replaceAll`; each step consumes at least one
character, so fuel `s.length` never runs out (and running out returns
the remainder unchanged, which is also what zero occurrences produce). -/
def replaceGo (old new : List Char) : Nat → List Char → List Char
  | _, [] => []
  | 0, s => s
  | fuel + 1, c :: t =>
    if old ≠ [] ∧ old.isPrefixOf (c :: t) then
      new ++ replaceGo old new fuel ((c :: t).drop old.length)
    else
      c :: replaceGo old new fuel t

/-- `s.replace(old, new)`: replace every non-overlapping occurrence of
`old`, scanning left to right (Python `str.replace`).  `old` is nonempty
for every use in the source. -/
def replaceAll (old new s : List Char) : List Char :=
  replaceGo old new s.length s

/-- The abbreviation fold table of `normalize_string`, in the source's
(dict-literal) order. -/
def replacementPairs : List (List Char × List Char) :=
  [("bte".data, "b".data), ("boite".data, "b".data),
   ("comprimés".data, "cp".data), ("comprimé".data, "cp".data),
   ("grammes".data, "g".data), ("gramme".data, "g".data),
   ("milligrammes".data, "mg".data), ("injectable".data, "inj".data),
   ("ampoule".data, "amp".data)]

def applyReplacements (s : List Char) : List Char :=
  replacementPairs.foldl (fun acc p => replaceAll p.1 p.2 acc) s

/-- `re.sub(r'[^a-z0-9. ]', ' ', s)`: every character outside the kept
class becomes one space. -/
def regexStrip (s : List Char) : List Char :=
  s.map (fun c => if isKeptC c then c else ' ')

/-- State machine for `re.sub(r'\s+', ' ', s)`: the flag records whether
the previous character was whitespace (in which case further whitespace
is absorbed into the already-emitted space). -/
def collapseGo : Bool → List Char → List Char
  | _, [] => []
  | prevSp, c :: t =>
    if isPySpace c then
      if prevSp then collapseGo true t else ' ' :: collapseGo true t
    else c :: collapseGo false t

/-- `re.sub(r'\s+', ' ', s)`: collapse each maximal whitespace run into a
single space. -/
def collapseWs (s : List Char) : List Char :=
  collapseGo false s

/-- Drop all trailing Python whitespace. -/
def dropTrail : List Char → List Char
  | [] => []
  | c :: t =>
    match dropTrail t with
    | [] => if isPySpace c then [] else [c]
    | r => c :: r

/-- Python `str.strip()`. -/
def pyStripWs (s : List Char) : List Char :=
  dropTrail (s.dropWhile isPySpace)

/-- `normalize_string` (api.py lines 34-41), on string input.  The
non-string guard of line 35 is modelled by `normalize_any`. -/
def normalize_string (s : List Char) : List Char :=
  pyStripWs (collapseWs (regexStrip (applyReplacements (s.map pyLower))))

/-- `normalize_string` with its line-35 guard: `none` models a
non-string input, which yields the empty signature. -/
def normalize_any : Option (List Char) → List Char
  | none => []
  | some s => normalize_string s

/-- `p` occurs as a contiguous substring of `s`. -/
def hasSubstring (p : List Char) : List Char → Bool
  | [] => p.isEmpty
  | c :: t => p.isPrefixOf (c :: t) || hasSubstring p t

/-- No two adjacent whitespace characters. -/
def noDblSpace : List Char → Bool
  | a :: b :: t => (!(isPySpace a && isPySpace b)) && noDblSpace (b :: t)
  | _ => true

/-- The first character (if any) is not whitespace. -/
def noLeadSpace : List Char → Bool
  | [] => true
  | c :: _ => !isPySpace c

/-- The last character (if any) is not whitespace. -/
def lastNotSpace : List Char → Bool
  | [] => true
  | [c] => !isPySpace c
  | _ :: c :: t => lastNotSpace (c :: t)

/-- Decimal value of a digit run. -/
def charsToNat (ds : List Char) : Nat :=
  ds.foldl (fun n c => 10 * n + (c.toNat - '0'.toNat)) 0

/-- Worker for `digitRuns`: `acc` holds the digits of the current run in
reverse order. -/
def digitRunsGo : List Char → List Char → List (List Char)
  | [], acc => if acc.isEmpty then [] else [acc.reverse]
  | c :: t, acc =>
    if isDigitC c then digitRunsGo t (c :: acc)
    else if acc.isEmpty then digitRunsGo t []
    else acc.reverse :: digitRunsGo t []

/-- All maximal digit runs of a string (`re.findall(r'\d+', s)`). -/
def digitRuns (s : List Char) : List (List Char) :=
  digitRunsGo s []

/-- `extract_numbers_from_string` (api.py lines 50-52), on string input:
every integer appearing in the string, in order. -/
def extract_numbers_from_string (s : List Char) : List Nat :=
  (digitRuns s).map charsToNat

/-- Value of `intDigits ++ "." ++ fracDigits` as an exact rational. -/
def decimalVal (intDigits fracDigits : List Char) : ℚ :=
  mkRat (charsToNat intDigits * 10 ^ fracDigits.length + charsToNat fracDigits)
    (10 ^ fracDigits.length)

/-- The first match of `r'(\d+\.?\d*)'` in a string, if any: a digit run
optionally followed by a dot and further digits. -/
def scanDecimal : List Char → Option (List Char × List Char)
  | [] => none
  | c :: t =>
    if isDigitC c then
      let r1 := (c :: t).takeWhile isDigitC
      let rest := (c :: t).drop r1.length
      match rest with
      | '.' :: r => some (r1, r.takeWhile isDigitC)
      | _ => some (r1, [])
    else scanDecimal t

/-- `extract_numeric_dosage` (api.py lines 43-48), on string input: the
first decimal number in the dosage string, else `none` (which also
models the non-string guard of line 44 when lifted pointwise). -/
def extract_numeric_dosage (s : List Char) : Option ℚ :=
  (scanDecimal s).map (fun p => decimalVal p.1 p.2)

/-- Python `float(s)` on the strings reachable in `extract_price`:
optional surrounding whitespace, then `d+`, `d+.d*` or `.d+`.
Anything else (empty, lone dot, two dots) raises, modelled as `none`. -/
def parsePyFloat (s : List Char) : Option ℚ :=
  let u := pyStripWs s
  let intD := u.takeWhile isDigitC
  let rest := u.drop intD.length
  match rest with
  | [] => if intD.isEmpty then none else some (charsToNat intD : ℚ)
  | '.' :: f =>
    let fd := f.takeWhile isDigitC
    if !(f.drop fd.length).isEmpty then none
    else if intD.isEmpty && fd.isEmpty then none
    else some (decimalVal intD fd)
  | _ => none

/-- Python `round` on rationals: round half to even.  Computed on the
numerator and (positive) denominator so the kernel can evaluate it: `f`
is the floor and `rem` the numerator of the fractional part. -/
def pyRound (q : ℚ) : ℤ :=
  let f := Int.fdiv q.num q.den
  let rem := q.num - f * q.den
  if 2 * rem < (q.den : ℤ) then f
  else if (q.den : ℤ) < 2 * rem then f + 1
  else if f % 2 = 0 then f else f + 1

/-- `max` on rationals through the decidable order, so that concrete
scores evaluate inside the kernel. -/
def qMax (a b : ℚ) : ℚ := if a ≤ b then b else a

/-- Rational multiplication via `mkRat`, which the kernel can evaluate
(the library's multiplication is irreducible). -/
def qMul (a b : ℚ) : ℚ := mkRat (a.num * b.num) (a.den * b.den)

/-- Rational addition via `mkRat`, which the kernel can evaluate. -/
def qAdd (a b : ℚ) : ℚ := mkRat (a.num * b.den + b.num * a.den) (a.den * b.den)

/-- Python `f"{x:.2f}"` for the nonnegative values produced by
`extract_price`: fixed two decimal places, rounding half to even.  (On
IEEE doubles the tie is taken on the binary value; the model rounds the
exact decimal, which agrees away from representation-boundary ties.) -/
def fmtTwoDec (q : ℚ) : List Char :=
  let n := (pyRound (qMul (mkRat 100 1) q)).toNat
  Nat.toDigits 10 (n / 100) ++ '.' ::
    (if n % 100 < 10 then '0' :: Nat.toDigits 10 (n % 100) else Nat.toDigits 10 (n % 100))

/-- The first match of `r'=(\s*\d+\.?\d*)'`: scanning left to right, the
first `=` that is followed (after optional whitespace) by at least one
digit; the captured group includes that whitespace, the digit run, and a
greedy optional `.digits` tail. -/
def parseEqNum (t : List Char) : Option (List Char) :=
  let sp := t.takeWhile isPySpace
  let afterSp := t.drop sp.length
  let r1 := afterSp.takeWhile isDigitC
  if r1.isEmpty then none
  else
    match afterSp.drop r1.length with
    | '.' :: r => some (sp ++ r1 ++ '.' :: r.takeWhile isDigitC)
    | _ => some (sp ++ r1)

def scanEq : List Char → Option (List Char)
  | [] => none
  | c :: t =>
    if c = '=' then
      match parseEqNum t with
      | some g => some g
      | none => scanEq t
    else scanEq t

/-- The first match of `r'(\d+\.?\d+)'` (note: at least two digits, or a
digit on each side of a dot), with the regex backtracking behaviour: a
maximal digit run followed by `.` and a digit extends across the dot;
otherwise a run of length at least two matches on its own. -/
def scanNum : List Char → Option (List Char)
  | [] => none
  | c :: t =>
    if isDigitC c then
      let r1 := (c :: t).takeWhile isDigitC
      match (c :: t).drop r1.length with
      | '.' :: d :: r =>
        if isDigitC d then some (r1 ++ '.' :: ((d :: r).takeWhile isDigitC))
        else if 2 ≤ r1.length then some r1 else scanNum t
      | _ => if 2 ≤ r1.length then some r1 else scanNum t
    else scanNum t

/-- Characters kept by the Priority-2 cleaning
`re.sub(r'[^0-9.+]', '', text)`. -/
def keepSumChar (c : Char) : Bool := isDigitC c || c == '.' || c == '+'

/-- Python `s.split('+')` (keeps empty pieces). -/
def splitPlus : List Char → List (List Char)
  | [] => [[]]
  | c :: t =>
    if c = '+' then [] :: splitPlus t
    else
      match splitPlus t with
      | [] => [[c]]
      | p :: ps => (c :: p) :: ps

/-- Priority 1 of `extract_price` (lines 72-78): the equation branch;
`float` of the captured group never fails here, but the source still
guards it, so a parse failure falls through. -/
def priceFromEq (t : List Char) : Option (List Char) :=
  (scanEq t).bind (fun g => (parsePyFloat g).map fmtTwoDec)

/-- Priority 2 of `extract_price` (lines 80-89): sum the `+`-separated
terms of the cleaned string; any unparsable term raises `ValueError`,
caught and turned into a fall-through. -/
def priceFromSum (t : List Char) : Option (List Char) :=
  if t.contains '+' then
    let cleaned := t.filter keepSumChar
    if 0 < cleaned.count '+' then
      ((splitPlus cleaned).mapM parsePyFloat).map
        (fun qs => fmtTwoDec (qs.foldl qAdd (mkRat 0 1)))
    else none
  else none

/-- Priority 3 of `extract_price` (lines 91-97): the first plain
number-like substring. -/
def priceFromNum (t : List Char) : Option (List Char) :=
  ((scanNum t).bind parsePyFloat).map fmtTwoDec

/-- `extract_price` (api.py lines 62-99), on string input (the
non-string guard of line 67 returns Python `None` and is outside this
model's domain).  Priority 1: the first `=` followed by a number.
Priority 2: a `+`-separated sum over the cleaned string.  Priority 3:
the first plain number-like substring.  Fallback: the string `"0.00"`. -/
def extract_price (s : List Char) : List Char :=
  let t := pyStripWs (s.map (fun c => if c = ',' then '.' else c))
  match priceFromEq t with
  | some r => r
  | none =>
    match priceFromSum t with
    | some r => r
    | none =>
      match priceFromNum t with
      | some r => r
      | none => "0.00".data

/-- One row of the longest-common-subsequence dynamic program:
given the row for a prefix of `b`, produce (the tail of) the row for
that prefix extended by `c`. -/
def lcsGo (c : Char) : List Char → List Nat → Nat → Nat → List Nat
  | [], _, _, _ => []
  | _ :: _, [], _, _ => []
  | x :: xs, p :: ps, diag, left =>
    let v := if x = c then diag + 1 else max p left
    v :: lcsGo c xs ps p v

/-- Length of the longest common subsequence of two strings. -/
def lcsFull (a b : List Char) : Nat :=
  let fin := b.foldl
    (fun row c =>
      match row with
      | [] => []
      | p :: ps => 0 :: lcsGo c a ps p 0)
    (List.replicate (a.length + 1) 0)
  fin.getLastD 0

/-- `fuzz.ratio` before rounding: the normalized indel similarity
`200·lcs/(|a|+|b|)`, with `ratio("","") = 100`. -/
def ratioQ (a b : List Char) : ℚ :=
  if a.isEmpty && b.isEmpty then 100
  else mkRat (200 * lcsFull a b) (a.length + b.length)

/-- Worker for `splitWs`: `acc` holds the current word in reverse. -/
def splitWsGo : List Char → List Char → List (List Char)
  | [], acc => if acc.isEmpty then [] else [acc.reverse]
  | c :: t, acc =>
    if isPySpace c then
      if acc.isEmpty then splitWsGo t [] else acc.reverse :: splitWsGo t []
    else splitWsGo t (c :: acc)

/-- Python `str.split()`: the whitespace-separated words. -/
def splitWs (s : List Char) : List (List Char) :=
  splitWsGo s []

/-- Lexicographic comparison of strings by code point (Python `<`). -/
def strLt : List Char → List Char → Bool
  | [], [] => false
  | [], _ :: _ => true
  | _ :: _, [] => false
  | a :: as, b :: bs =>
    if a.toNat < b.toNat then true
    else if b.toNat < a.toNat then false
    else strLt as bs

def insSorted (x : List Char) : List (List Char) → List (List Char)
  | [] => [x]
  | y :: t => if strLt y x then y :: insSorted x t else x :: y :: t

/-- Ascending insertion sort (Python `sorted` on strings). -/
def sortStrs (l : List (List Char)) : List (List Char) :=
  l.foldr insSorted []

/-- Remove duplicate tokens (Python `set`; the order is irrelevant since
the result is always sorted afterwards). -/
def dedupStrs : List (List Char) → List (List Char)
  | [] => []
  | x :: t => if t.contains x then dedupStrs t else x :: dedupStrs t

/-- `" ".join(l)`. -/
def joinSp (l : List (List Char)) : List Char :=
  List.intercalate [' '] l

/-- `fuzz.token_sort_ratio` before rounding, generic in the base
similarity so the partial variant shares the construction. -/
def tokenSortWith (r : List Char → List Char → ℚ) (a b : List Char) : ℚ :=
  r (joinSp (sortStrs (splitWs a))) (joinSp (sortStrs (splitWs b)))

/-- `fuzz.token_set_ratio` before rounding: sort the deduplicated token
sets, split into intersection and the two differences, and take the best
pairwise similarity of `sect`, `sect ++ diff_ab`, `sect ++ diff_ba`;
`0` when either side has no tokens. -/
def tokenSetWith (r : List Char → List Char → ℚ) (a b : List Char) : ℚ :=
  let ta := sortStrs (dedupStrs (splitWs a))
  let tb := sortStrs (dedupStrs (splitWs b))
  if ta.isEmpty || tb.isEmpty then 0
  else
    let sect := ta.filter (fun t => tb.contains t)
    let da := ta.filter (fun t => !tb.contains t)
    let db := tb.filter (fun t => !ta.contains t)
    let t0 := joinSp sect
    let t1 := joinSp (sect ++ da)
    let t2 := joinSp (sect ++ db)
    qMax (r t0 t1) (qMax (r t0 t2) (r t1 t2))

/-- `fuzz.partial_ratio` before rounding: the best `ratio` of the
shorter string against the same-length windows of the longer one. -/
def pRatioQ (a b : List Char) : ℚ :=
  let s := if a.length ≤ b.length then a else b
  let l := if a.length ≤ b.length then b else a
  if s.isEmpty then (if l.isEmpty then 100 else 0)
  else
    ((List.range (l.length - s.length + 1)).map
      (fun i => ratioQ s ((l.drop i).take s.length))).foldl qMax 0

def tokenSortQ (a b : List Char) : ℚ := tokenSortWith ratioQ a b
def tokenSetQ (a b : List Char) : ℚ := tokenSetWith ratioQ a b
def pTokenSortQ (a b : List Char) : ℚ := tokenSortWith pRatioQ a b
def pTokenSetQ (a b : List Char) : ℚ := tokenSetWith pRatioQ a b

/-- `fuzz.WRatio` before rounding, on preprocessed strings: `0` when a
side is empty; otherwise the plain ratio, improved by the token scorers
scaled by 0.95 when the lengths are comparable (`len_ratio < 1.5`), and
by the partial scorers scaled by 0.9 (0.6 when `len_ratio > 8`)
otherwise. -/
def wRatioQ (a b : List Char) : ℚ :=
  if a.isEmpty || b.isEmpty then 0
  else
    let lenRatio : ℚ := mkRat (max a.length b.length) (min a.length b.length)
    let base := ratioQ a b
    if lenRatio < mkRat 3 2 then
      qMax base (qMul (mkRat 19 20) (qMax (tokenSortQ a b) (tokenSetQ a b)))
    else
      let scale : ℚ := if mkRat 8 1 < lenRatio then mkRat 3 5 else mkRat 9 10
      qMax base (qMax (qMul scale (pRatioQ a b))
        (qMul (qMul scale (mkRat 19 20)) (qMax (pTokenSortQ a b) (pTokenSetQ a b))))

/-- The default processor applied by `process.extractOne` to the query
and every choice: lowercase, replace non-alphanumerics by spaces, trim. -/
def full_process (s : List Char) : List Char :=
  pyStripWs (s.map (fun c =>
    let d := pyLower c
    if isLowerC d || isDigitC d then d else ' '))

/-- A `thefuzz` scorer as seen through `process.extractOne`: the
rational similarity rounded to an integer (Python `round`, half to
even). -/
def token_set_score (a b : List Char) : ℤ := pyRound (tokenSetQ a b)
def p_token_set_score (a b : List Char) : ℤ := pyRound (pTokenSetQ a b)
def wratio_score (a b : List Char) : ℤ := pyRound (wRatioQ a b)

/-- `process.extractOne(query, choices, scorer)`: preprocess both sides,
score every choice, and return the first choice attaining the maximal
score (`none` on an empty choice sequence, where the Python call site
would fail). -/
def extractOne (scorer : List Char → List Char → ℤ) (q : List Char)
    (choices : List (List Char)) : Option (List Char × ℤ) :=
  choices.foldl
    (fun acc ch =>
      let sc := scorer (full_process q) (full_process ch)
      match acc with
      | none => some (ch, sc)
      | some (_, bs) => if bs < sc then some (ch, sc) else acc)
    none

/-- One catalog row (`chifa_data` after `astype(str)`): the columns the
matching code reads.  `DosageNumeric` is derived, see `rowDosageNumeric`. -/
structure Row where
  nom_commercial : List Char
  dci : List Char
  dosage : List Char
  presentation : List Char
  forme : List Char
  ppa : List Char
deriving DecidableEq

def insNat (x : Nat) : List Nat → List Nat
  | [] => [x]
  | y :: t => if y ≤ x then y :: insNat x t else x :: y :: t

/-- Ascending insertion sort on naturals (Python `sorted`). -/
def sortNat (l : List Nat) : List Nat :=
  l.foldr insNat []

/-- The derived `DosageNumeric` column (api.py line 109). -/
def rowDosageNumeric (r : Row) : Option ℚ :=
  extract_numeric_dosage r.dosage

/-- The structured fields returned by the field extractor for one
observation (`ai_data`), before the line-148 price parsing. -/
structure Obs where
  nom : List Char
  dosage : List Char
  conditionnement : List Char
  ppa : List Char
deriving DecidableEq

/-- `build_reference_string` (api.py lines 54-60). -/
def build_reference_string (r : Row) (include_name include_details : Bool) :
    List Char :=
  pyStripWs (joinSp
    (((if include_name then [r.nom_commercial] else []) ++
      (if include_details then [r.dosage, r.presentation] else [])).filter
      (fun p => !p.isEmpty)))

/-- Append `v` to the bucket of `k`, creating the bucket at the end when
`k` is new: the insertion behaviour of `DB_NAMES_MAP` (api.py
lines 110-115), whose key order is first-occurrence order. -/
def insertAppend (m : List (List Char × List Row)) (k : List Char) (v : Row) :
    List (List Char × List Row) :=
  if (m.map Prod.fst).contains k then
    m.map (fun kv => if kv.1 == k then (kv.1, kv.2 ++ [v]) else kv)
  else m ++ [(k, [v])]

/-- `DB_NAMES_MAP`: normalized commercial name → catalog rows sharing
it, in catalog order. -/
def dbNamesMap (rows : List Row) : List (List Char × List Row) :=
  rows.foldl
    (fun m r => insertAppend m (normalize_string (build_reference_string r true false)) r)
    []

/-- A Python dict comprehension `{key(d): d for d in l}`: on duplicate
keys the last value wins while the key keeps its first position. -/
def buildLastWins (l : List (List Char × Row)) : List (List Char × Row) :=
  l.foldl
    (fun m kv =>
      if (m.map Prod.fst).contains kv.1 then
        m.map (fun e => if e.1 == kv.1 then (e.1, kv.2) else e)
      else m ++ [kv])
    []

/-- The successful-match dictionary built by `get_response` (api.py
lines 153-169). -/
structure MatchOk where
  nom : List Char
  dci : List Char
  dosage : List Char
  conditionnement : List Char
  ppa : List Char
  match_score : ℤ
  status : List Char
  posologie_qte_prise : List Char
  posologie_unite : List Char
  posologie_frequence : List Char
  posologie_periode : List Char
deriving DecidableEq

/-- A resolver outcome: either a `get_response` dictionary or one of the
failure dictionaries `{"status": ..., "details": ...}`. -/
inductive Resp where
  | ok (r : MatchOk)
  | fail (status details : List Char)
deriving DecidableEq

def stEchec : List Char := "Échec".data
def stReco : List Char := "Échec de la reconnaissance".data
def msgNoName : List Char := "Nom du médicament non trouvé par l\x27IA.".data
def msgNoCand : List Char := "Aucun candidat à la comparaison trouvé.".data
def msgNoMatch : List Char := "Aucune correspondance fiable trouvée.".data
def stDosExact : List Char := "Vérifié (Dosage Exact)".data
def stCond : List Char := "Vérifié (N° de conditionnement)".data
def stForme : List Char := "Vérifié (Forme Exacte)".data
def stAuto : List Char := "Auto-Corrigé".data

/-- The name-gate failure details,
`f"Nom non correspondant (Score: {score_name})."`. -/
def gateMsg (n : ℤ) : List Char :=
  "Nom non correspondant (Score: ".data ++ Nat.toDigits 10 n.toNat ++ ").".data

/-- `get_response(db_row, score, status)` (api.py lines 153-169).
`ppaParsed` is `ai_data['ppa']` after the line-148 parse; when it equals
the `"0.00"` sentinel the price is re-parsed from the catalog row's own
`PPA` column. -/
def get_response (ppaParsed : List Char) (row : Row) (score : ℤ)
    (status : List Char) : MatchOk :=
  { nom := row.nom_commercial
    dci := row.dci
    dosage := row.dosage
    conditionnement := row.presentation
    ppa := if ppaParsed == "0.00".data then extract_price row.ppa else ppaParsed
    match_score := score
    status := status
    posologie_qte_prise := []
    posologie_unite := row.forme
    posologie_frequence := []
    posologie_periode := [] }

/-- `int(score_name * 0.6 + score_details * 0.4)` (api.py line 207);
both scores are nonnegative, so Python's truncation is a floor. -/
def finalScore (sn sd : ℤ) : ℤ :=
  Int.fdiv (6 * sn + 4 * sd) 10

/-- The numeric-dosage block (api.py lines 179-199), entered when the
observation has a numeric dosage; `ex` is `exact_dosage_matches`.
`some r` is an early `return r`; `none` falls through to the details
stage. -/
def dosageStage (obs : Obs) (ppaParsed : List Char) (ex : List Row) :
    Option Resp :=
  match ex with
  | [] => none
  | [d] => some (.ok (get_response ppaParsed d 100 stDosExact))
  | _ :: _ :: _ =>
    match
      (if (extract_numbers_from_string obs.conditionnement).isEmpty then none
       else
        match ex.filter (fun d =>
          !(extract_numbers_from_string d.presentation).isEmpty &&
          decide (sortNat (extract_numbers_from_string obs.conditionnement) =
            sortNat (extract_numbers_from_string d.presentation))) with
        | [p] => some (Resp.ok (get_response ppaParsed p 100 stCond))
        | _ => none) with
    | some r => some r
    | none =>
      if (normalize_string obs.conditionnement).isEmpty then none
      else
        match extractOne p_token_set_score (normalize_string obs.conditionnement)
            ((buildLastWins (ex.map (fun d => (normalize_string d.presentation, d)))).map
              Prod.fst) with
        | none => none
        | some (bm, scr) =>
          if 85 ≤ scr then
            match List.lookup bm
                (buildLastWins (ex.map (fun d => (normalize_string d.presentation, d)))) with
            | some d => some (.ok (get_response ppaParsed d scr stForme))
            | none => none
          else none

/-- The details stage (api.py lines 200-209): fuzzy-score the combined
dosage+packaging signature against the candidates with `fuzz.WRatio`,
accept at 75 with the 0.6/0.4 blended score. -/
def detailsStage (obs : Obs) (ppaParsed : List Char) (scoreName : ℤ)
    (listToSearch : List Row) : Option Resp :=
  if (buildLastWins (listToSearch.map
      (fun d => (normalize_string (build_reference_string d false true), d)))).isEmpty then
    some (.fail stReco msgNoCand)
  else
    match extractOne wratio_score
        (normalize_string (obs.dosage ++ ' ' :: obs.conditionnement))
        ((buildLastWins (listToSearch.map
          (fun d => (normalize_string (build_reference_string d false true), d)))).map
          Prod.fst) with
    | none => none
    | some (bd, sd) =>
      if 75 ≤ sd then
        match List.lookup bd
            (buildLastWins (listToSearch.map
              (fun d => (normalize_string (build_reference_string d false true), d)))) with
        | some d => some (.ok (get_response ppaParsed d (finalScore scoreName sd) stAuto))
        | none => none
      else some (.fail stReco msgNoMatch)

/-- The matching core of `process_image_data` (api.py lines 148 and
171-209), given the extractor output `obs` and the catalog `rows`.  The
OCR/LLM glue in front of it is an external collaborator.  `none` models
an uncaught exception (only reachable through `extractOne` on an empty
catalog map). -/
def process_image_data (obs : Obs) (rows : List Row) : Option Resp :=
  if (normalize_string obs.nom).isEmpty then some (.fail stEchec msgNoName)
  else
    match extractOne token_set_score (normalize_string obs.nom)
        ((dbNamesMap rows).map Prod.fst) with
    | none => none
    | some (bestName, scoreName) =>
      if scoreName < 80 then some (.fail stReco (gateMsg scoreName))
      else
        match List.lookup bestName (dbNamesMap rows) with
        | none => none
        | some candidateDrugs =>
          match extract_numeric_dosage obs.dosage with
          | none => detailsStage obs (extract_price obs.ppa) scoreName candidateDrugs
          | some q =>
            match dosageStage obs (extract_price obs.ppa)
                (candidateDrugs.filter (fun d => decide (rowDosageNumeric d = some q))) with
            | some r => some r
            | none =>
              detailsStage obs (extract_price obs.ppa) scoreName
                (if (candidateDrugs.filter
                    (fun d => decide (rowDosageNumeric d = some q))).isEmpty then
                  candidateDrugs
                else candidateDrugs.filter (fun d => decide (rowDosageNumeric d = some q)))

/-- Modelled from the spec (§4.4 Stage 1): the observation's full
signature; the code never builds it (it has no full-record index), so
this definition follows the spec's words `fullSig` =
normalize(name+dosage+packaging). -/
def spec_full_signature (obs : Obs) : List Char :=
  normalize_string (obs.nom ++ ' ' :: obs.dosage ++ ' ' :: obs.conditionnement)

/-- Modelled from the spec (§3 `byFullSignature`): a catalog entry's
full-record key, normalize(name+dosage+presentation). -/
def spec_row_full_signature (r : Row) : List Char :=
  normalize_string (build_reference_string r true true)

/-- Modelled from the spec (§4.4 Stage 1): the token-set fuzzy score of
the observation's full signature against a full-record key, through the
same scorer pipeline the code uses for its name stage. -/
def spec_stage1_score (obs : Obs) (r : Row) : ℤ :=
  token_set_score (full_process (spec_full_signature obs))
    (full_process (spec_row_full_signature r))

/-! ### Lemmas about the normalizer -/

theorem isKeptC_space : isKeptC ' ' = true := by decide

theorem mem_regexStrip {c : Char} {s : List Char} (h : c ∈ regexStrip s) :
    isKeptC c = true := by
  unfold regexStrip at h
  rcases List.mem_map.mp h with ⟨x, _, hx⟩
  by_cases hk : isKeptC x = true
  · rw [if_pos hk] at hx; rwa [← hx]
  · rw [if_neg hk] at hx; rw [← hx]; exact isKeptC_space

theorem mem_collapseGo {c : Char} :
    ∀ {b : Bool} {l : List Char}, c ∈ collapseGo b l → c ∈ l ∨ c = ' '
  | _, [], h => by simp [collapseGo] at h
  | b, x :: t, h => by
    unfold collapseGo at h
    by_cases hs : isPySpace x = true
    · rw [if_pos hs] at h
      cases b with
      | true =>
        simp only [if_pos rfl] at h
        rcases mem_collapseGo h with h' | h'
        · exact Or.inl (List.mem_cons_of_mem _ h')
        · exact Or.inr h'
      | false =>
        simp only [Bool.false_eq_true, if_neg] at h
        rcases List.mem_cons.mp h with h' | h'
        · exact Or.inr h'
        · rcases mem_collapseGo h' with h'' | h''
          · exact Or.inl (List.mem_cons_of_mem _ h'')
          · exact Or.inr h''
    · rw [if_neg hs] at h
      rcases List.mem_cons.mp h with h' | h'
      · exact Or.inl (by rw [h']; exact List.mem_cons_self _ _)
      · rcases mem_collapseGo h' with h'' | h''
        · exact Or.inl (List.mem_cons_of_mem _ h'')
        · exact Or.inr h''

theorem mem_dropTrail {c : Char} : ∀ {l : List Char}, c ∈ dropTrail l → c ∈ l
  | [], h => by simp [dropTrail] at h
  | x :: t, h => by
    unfold dropTrail at h
    cases hd : dropTrail t with
    | nil =>
      rw [hd] at h
      by_cases hs : isPySpace x = true
      · rw [if_pos hs] at h; simp at h
      · rw [if_neg hs] at h
        rcases List.mem_singleton.mp h with h'
        rw [h']; exact List.mem_cons_self _ _
    | cons d r =>
      rw [hd] at h
      rcases List.mem_cons.mp h with h' | h'
      · rw [h']; exact List.mem_cons_self _ _
      · exact List.mem_cons_of_mem _ (mem_dropTrail (hd ▸ h'))

theorem mem_pyStripWs {c : Char} {l : List Char} (h : c ∈ pyStripWs l) : c ∈ l :=
  (List.dropWhile_sublist isPySpace).subset (mem_dropTrail h)

theorem noLead_dropWhile (l : List Char) : noLeadSpace (l.dropWhile isPySpace) = true := by
  induction l with
  | nil => rfl
  | cons c t ih =>
    by_cases hs : isPySpace c = true
    · rw [List.dropWhile_cons_of_pos hs]; exact ih
    · rw [List.dropWhile_cons_of_neg hs]
      simp [noLeadSpace, hs]

theorem collapseGo_true_noLead : ∀ l : List Char, noLeadSpace (collapseGo true l) = true
  | [] => rfl
  | c :: t => by
    unfold collapseGo
    by_cases hs : isPySpace c = true
    · rw [if_pos hs, if_pos rfl]; exact collapseGo_true_noLead t
    · rw [if_neg hs]; simp [noLeadSpace, hs]

theorem noDblSpace_tail {c : Char} {l : List Char} (h : noDblSpace (c :: l) = true) :
    noDblSpace l = true := by
  cases l with
  | nil => rfl
  | cons d r =>
    simp only [noDblSpace, Bool.and_eq_true] at h
    exact h.2

theorem noDblSpace_cons {c : Char} {l : List Char}
    (h1 : isPySpace c = false ∨ noLeadSpace l = true) (h2 : noDblSpace l = true) :
    noDblSpace (c :: l) = true := by
  cases l with
  | nil => rfl
  | cons d r =>
    simp only [noDblSpace, Bool.and_eq_true, Bool.not_eq_true']
    refine ⟨?_, h2⟩
    rcases h1 with h1 | h1
    · simp [h1]
    · simp only [noLeadSpace, Bool.not_eq_true'] at h1
      simp [h1]

theorem noDbl_collapseGo : ∀ (l : List Char) (b : Bool), noDblSpace (collapseGo b l) = true
  | [], _ => rfl
  | c :: t, b => by
    unfold collapseGo
    by_cases hs : isPySpace c = true
    · rw [if_pos hs]
      cases b with
      | true => simpa using noDbl_collapseGo t true
      | false =>
        simp only [Bool.false_eq_true, if_neg]
        exact noDblSpace_cons (Or.inr (collapseGo_true_noLead t)) (noDbl_collapseGo t true)
    · rw [if_neg hs]
      exact noDblSpace_cons (Or.inl (by simpa using hs)) (noDbl_collapseGo t false)

theorem noDbl_dropWhile {l : List Char} (h : noDblSpace l = true) :
    noDblSpace (l.dropWhile isPySpace) = true := by
  induction l with
  | nil => exact h
  | cons c t ih =>
    by_cases hs : isPySpace c = true
    · rw [List.dropWhile_cons_of_pos hs]; exact ih (noDblSpace_tail h)
    · rwa [List.dropWhile_cons_of_neg hs]

theorem dropTrail_head : ∀ {l : List Char} {d : Char} {r : List Char},
    dropTrail l = d :: r → ∃ t, l = d :: t
  | [], d, r, h => by simp [dropTrail] at h
  | x :: t, d, r, h => by
    unfold dropTrail at h
    cases hd : dropTrail t with
    | nil =>
      rw [hd] at h
      by_cases hs : isPySpace x = true
      · rw [if_pos hs] at h; cases h
      · rw [if_neg hs] at h
        cases h
        exact ⟨t, rfl⟩
    | cons d' r' =>
      rw [hd] at h
      cases h
      exact ⟨t, rfl⟩

theorem noLead_dropTrail : ∀ {l : List Char}, noLeadSpace l = true →
    noLeadSpace (dropTrail l) = true
  | [], _ => rfl
  | x :: t, h => by
    unfold dropTrail
    cases hd : dropTrail t with
    | nil =>
      by_cases hs : isPySpace x = true
      · rw [if_pos hs]; rfl
      · rw [if_neg hs]; exact h
    | cons d r => exact h

theorem noDbl_dropTrail : ∀ {l : List Char}, noDblSpace l = true →
    noDblSpace (dropTrail l) = true
  | [], h => h
  | x :: t, h => by
    unfold dropTrail
    cases hd : dropTrail t with
    | nil =>
      by_cases hs : isPySpace x = true
      · rw [if_pos hs]; rfl
      · rw [if_neg hs]; rfl
    | cons d r =>
      refine noDblSpace_cons ?_ (hd ▸ noDbl_dropTrail (noDblSpace_tail h))
      by_cases hs : isPySpace x = true
      · right
        rcases dropTrail_head hd with ⟨t', ht⟩
        subst ht
        simp only [noDblSpace, Bool.and_eq_true, Bool.not_eq_true'] at h
        rcases h with ⟨hnd, _⟩
        rw [hs] at hnd
        simp only [Bool.true_and] at hnd
        simp [noLeadSpace, hnd]
      · exact Or.inl (by simpa using hs)

theorem lastNot_dropTrail : ∀ l : List Char, lastNotSpace (dropTrail l) = true
  | [] => rfl
  | x :: t => by
    unfold dropTrail
    cases hd : dropTrail t with
    | nil =>
      by_cases hs : isPySpace x = true
      · rw [if_pos hs]; rfl
      · rw [if_neg hs]; simp [lastNotSpace, hs]
    | cons d r =>
      have := lastNot_dropTrail t
      rw [hd] at this
      simpa [lastNotSpace] using this

/-- Every character of a normalized signature is lowercase
alphanumeric, a dot, or a space. -/
theorem normalize_chars {c : Char} {s : List Char}
    (h : c ∈ normalize_string s) : isKeptC c = true := by
  unfold normalize_string at h
  have h1 := mem_pyStripWs h
  rcases mem_collapseGo h1 with h2 | h2
  · exact mem_regexStrip h2
  · rw [h2]; exact isKeptC_space

/-- A normalized signature never contains two adjacent whitespace
characters. -/
theorem normalize_noDbl (s : List Char) : noDblSpace (normalize_string s) = true :=
  noDbl_dropTrail (noDbl_dropWhile (noDbl_collapseGo _ false))

/-- A normalized signature never starts with whitespace. -/
theorem normalize_noLead (s : List Char) : noLeadSpace (normalize_string s) = true :=
  noLead_dropTrail (noLead_dropWhile _)

/-- A normalized signature never ends with whitespace. -/
theorem normalize_lastNot (s : List Char) : lastNotSpace (normalize_string s) = true :=
  lastNot_dropTrail _

/-! ### Fixpoint lemmas: the normalizer is the identity on strings that
are already in normal form and contain no abbreviation key. -/

theorem pyLower_fix {c : Char} (h : isKeptC c = true) : pyLower c = c := by
  unfold pyLower
  rw [if_neg]
  intro ⟨h1, h2⟩
  simp only [isKeptC, isLowerC, isDigitC, Bool.or_eq_true, Bool.and_eq_true,
    decide_eq_true_eq, beq_iff_eq] at h
  rcases h with (⟨a, b⟩ | ⟨a, b⟩) | rfl | rfl
  · omega
  · omega
  · exact absurd h1 (by decide)
  · exact absurd h1 (by decide)

theorem map_pyLower_fix {l : List Char} (h : ∀ c ∈ l, isKeptC c = true) :
    l.map pyLower = l := by
  induction l with
  | nil => rfl
  | cons c t ih =>
    simp only [List.map_cons]
    rw [pyLower_fix (h c (List.mem_cons_self _ _)),
      ih (fun x hx => h x (List.mem_cons_of_mem _ hx))]

theorem regexStrip_fix {l : List Char} (h : ∀ c ∈ l, isKeptC c = true) :
    regexStrip l = l := by
  unfold regexStrip
  induction l with
  | nil => rfl
  | cons c t ih =>
    simp only [List.map_cons]
    rw [if_pos (h c (List.mem_cons_self _ _)),
      ih (fun x hx => h x (List.mem_cons_of_mem _ hx))]

theorem replaceGo_fix {old new : List Char} (hne : old ≠ []) :
    ∀ (fuel : Nat) (s : List Char), hasSubstring old s = false →
      replaceGo old new fuel s = s
  | fuel, [], _ => by cases fuel <;> rfl
  | 0, c :: t, _ => rfl
  | fuel + 1, c :: t, h => by
    simp only [hasSubstring, Bool.or_eq_false_iff] at h
    unfold replaceGo
    rw [if_neg (by
      intro ⟨_, hp⟩
      rw [h.1] at hp
      cases hp)]
    rw [replaceGo_fix hne fuel t h.2]

theorem replaceAll_fix {old new s : List Char} (hne : old ≠ [])
    (h : hasSubstring old s = false) : replaceAll old new s = s :=
  replaceGo_fix hne _ s h

theorem applyReplacements_fix {t : List Char}
    (h : ∀ p ∈ replacementPairs, hasSubstring p.1 t = false) :
    applyReplacements t = t := by
  have key : ∀ (pairs : List (List Char × List Char)),
      (∀ p ∈ pairs, p.1 ≠ [] ∧ hasSubstring p.1 t = false) →
      pairs.foldl (fun acc p => replaceAll p.1 p.2 acc) t = t := by
    intro pairs
    induction pairs with
    | nil => intro _; rfl
    | cons p ps ih =>
      intro hp
      have h1 := hp p (List.mem_cons_self _ _)
      simp only [List.foldl_cons]
      rw [replaceAll_fix h1.1 h1.2]
      exact ih (fun q hq => hp q (List.mem_cons_of_mem _ hq))
  refine key replacementPairs (fun p hp => ⟨?_, h p hp⟩)
  fin_cases hp <;> simp [replacementPairs]

theorem kept_space_eq {c : Char} (h1 : isKeptC c = true) (h2 : isPySpace c = true) :
    c = ' ' := by
  simp only [isPySpace, Bool.or_eq_true, beq_iff_eq] at h2
  rcases h2 with ((((h2 | h2) | h2) | h2) | h2) | h2
  · exact h2
  all_goals
    simp only [isKeptC, isLowerC, isDigitC, Bool.or_eq_true, Bool.and_eq_true,
      decide_eq_true_eq] at h1
    subst h2
    rcases h1 with (⟨a, b⟩ | ⟨a, b⟩) | h1 | h1 <;> simp_all

theorem collapseGo_fix : ∀ {t : List Char}, noDblSpace t = true →
    (∀ c ∈ t, isKeptC c = true) →
    collapseGo false t = t ∧ (noLeadSpace t = true → collapseGo true t = t)
  | [], _, _ => ⟨rfl, fun _ => rfl⟩
  | c :: t, hd, hk => by
    have hkc := hk c (List.mem_cons_self _ _)
    have hkt := fun x hx => hk x (List.mem_cons_of_mem _ hx)
    by_cases hs : isPySpace c = true
    · have hc : c = ' ' := kept_space_eq hkc hs
      have hlead : noLeadSpace t = true := by
        cases t with
        | nil => rfl
        | cons d r =>
          simp only [noDblSpace, Bool.and_eq_true, Bool.not_eq_true',
            Bool.and_eq_false_iff] at hd
          rcases hd.1 with h' | h'
          · rw [hs] at h'; cases h'
          · simp [noLeadSpace, h']
      have ih := collapseGo_fix (noDblSpace_tail hd) hkt
      constructor
      · unfold collapseGo
        rw [if_pos hs, ih.2 hlead, hc]
        simp
      · intro hl
        rw [hc] at hl
        simp [noLeadSpace, isPySpace] at hl
    · have ih := collapseGo_fix (noDblSpace_tail hd) hkt
      constructor
      · unfold collapseGo
        rw [if_neg hs, ih.1]
      · intro _
        unfold collapseGo
        rw [if_neg hs, ih.1]

theorem dropWhile_fix {t : List Char} (h : noLeadSpace t = true) :
    t.dropWhile isPySpace = t := by
  cases t with
  | nil => rfl
  | cons c r =>
    simp only [noLeadSpace, Bool.not_eq_true'] at h
    rw [List.dropWhile_cons_of_neg (by simp [h])]

theorem dropTrail_fix : ∀ {t : List Char}, lastNotSpace t = true → dropTrail t = t
  | [], _ => rfl
  | [c], h => by
    simp only [lastNotSpace, Bool.not_eq_true'] at h
    unfold dropTrail
    unfold dropTrail
    simp [h]
  | c :: d :: r, h => by
    have ih := dropTrail_fix (t := d :: r) (by simpa [lastNotSpace] using h)
    unfold dropTrail
    rw [ih]

/-- The normalizer is the identity on any string already in normal form
(kept characters, single internal spaces, trimmed) that contains no
abbreviation-fold key. -/
theorem normalize_of_normal {t : List Char}
    (hchars : ∀ c ∈ t, isKeptC c = true) (hdbl : noDblSpace t = true)
    (hlead : noLeadSpace t = true) (hlast : lastNotSpace t = true)
    (hkeys : ∀ p ∈ replacementPairs, hasSubstring p.1 t = false) :
    normalize_string t = t := by
  unfold normalize_string
  rw [map_pyLower_fix hchars, applyReplacements_fix hkeys, regexStrip_fix hchars]
  unfold collapseWs
  rw [(collapseGo_fix hdbl hchars).1]
  unfold pyStripWs
  rw [dropWhile_fix hlead, dropTrail_fix hlast]

/-- The normalizer is the identity on its own output, provided that
output contains no abbreviation-fold key. -/
theorem normalize_string_fix {s : List Char}
    (h : ∀ p ∈ replacementPairs, hasSubstring p.1 (normalize_string s) = false) :
    normalize_string (normalize_string s) = normalize_string s :=
  normalize_of_normal (fun _ hc => normalize_chars hc) (normalize_noDbl s)
    (normalize_noLead s) (normalize_lastNot s) h

/-! ### Claims C3 and C4 -/

/-- Claim C3, counterexample: the normalizer keeps dots (`re.sub` keeps
the class `[a-z0-9. ]`), so its output is not restricted to lowercase
alphanumerics and spaces: `normalize_string "a.b"` is `"a.b"`, which
contains `'.'`. -/
theorem C3_counterexample :
    normalize_string "a.b".data = "a.b".data ∧ '.' ∈ normalize_string "a.b".data := by
  constructor
  · decide
  · decide

/-- Claim C3 as amended: for every input the normalizer's output
contains only lowercase alphanumerics, dots and spaces, with no
repeated, leading, or trailing whitespace; empty input and non-string
input (`normalize_any none`) both yield the empty signature without
raising. -/
theorem C3_amended :
    (∀ s : List Char, (normalize_string s).all isKeptC = true ∧
      noDblSpace (normalize_string s) = true ∧
      noLeadSpace (normalize_string s) = true ∧
      lastNotSpace (normalize_string s) = true) ∧
    normalize_string [] = [] ∧ normalize_any none = [] := by
  refine ⟨fun s => ⟨?_, normalize_noDbl s, normalize_noLead s, normalize_lastNot s⟩,
    rfl, rfl⟩
  exact List.all_eq_true.mpr (fun c hc => normalize_chars hc)

/-- Claim C4, counterexample: normalization is not idempotent; the
abbreviation folds can create a new foldable key.  On `"boitete"` the
fold `boite → b` produces `"bte"`, and a second pass folds `bte → b`. -/
theorem C4_counterexample :
    normalize_string (normalize_string "boitete".data) ≠
      normalize_string "boitete".data := by decide

/-- Claim C4 as amended: normalization is idempotent on every string
whose normalized form contains no abbreviation-fold key (`bte`, `boite`,
`comprimé(s)`, `gramme(s)`, `milligrammes`, `injectable`, `ampoule`);
in general a second pass can fold further. -/
theorem C4_amended (s : List Char)
    (h : ∀ p ∈ replacementPairs, hasSubstring p.1 (normalize_string s) = false) :
    normalize_string (normalize_string s) = normalize_string s :=
  normalize_string_fix h

/-- Witness for C4 as amended, at the signature `"doliprane 1000 mg"`. -/
theorem C4_amended_witness :
    (∀ p ∈ replacementPairs,
        hasSubstring p.1 (normalize_string "DOLIPRANE 1000 MG".data) = false) ∧
    normalize_string (normalize_string "DOLIPRANE 1000 MG".data) =
      normalize_string "DOLIPRANE 1000 MG".data :=
  ⟨by decide, C4_amended _ (by decide)⟩

/-! ### Lemmas about the price parser -/

theorem mem_takeWhile_sub {p : Char → Bool} {c : Char} {l : List Char}
    (h : c ∈ l.takeWhile p) : c ∈ l :=
  (List.takeWhile_sublist p).subset h

theorem mem_drop_sub {c : Char} {n : Nat} {l : List Char} (h : c ∈ l.drop n) : c ∈ l :=
  (List.drop_sublist n l).subset h

theorem takeWhile_digit_nil {l : List Char} (h : ∀ c ∈ l, isDigitC c = false) :
    l.takeWhile isDigitC = [] := by
  cases l with
  | nil => rfl
  | cons c t =>
    rw [List.takeWhile_cons_of_neg]
    simp [h c (List.mem_cons_self _ _)]

theorem parseEqNum_none {t : List Char} (h : ∀ c ∈ t, isDigitC c = false) :
    parseEqNum t = none := by
  simp only [parseEqNum]
  rw [takeWhile_digit_nil (l := t.drop (t.takeWhile isPySpace).length)
    (fun c hc => h c (mem_drop_sub hc))]
  rfl

theorem scanEq_none_of_nodigit : ∀ {l : List Char},
    (∀ c ∈ l, isDigitC c = false) → scanEq l = none
  | [], _ => rfl
  | c :: t, h => by
    have ht : ∀ x ∈ t, isDigitC x = false := fun x hx => h x (List.mem_cons_of_mem _ hx)
    unfold scanEq
    by_cases hc : c = '='
    · rw [if_pos hc, parseEqNum_none ht]
      exact scanEq_none_of_nodigit ht
    · rw [if_neg hc]
      exact scanEq_none_of_nodigit ht

theorem pyStripWs_nodigit {l : List Char} (h : ∀ c ∈ l, isDigitC c = false) :
    ∀ c ∈ pyStripWs l, isDigitC c = false :=
  fun c hc => h c (mem_pyStripWs hc)

theorem parsePyFloat_none {s : List Char} (h : ∀ c ∈ s, isDigitC c = false) :
    parsePyFloat s = none := by
  simp only [parsePyFloat]
  have hu : ∀ c ∈ pyStripWs s, isDigitC c = false := pyStripWs_nodigit h
  rw [takeWhile_digit_nil (l := pyStripWs s) hu]
  simp only [List.length_nil, List.drop_zero]
  split
  · simp
  · rename_i f heq
    have hf : ∀ x ∈ f, isDigitC x = false :=
      fun x hx => hu x (heq ▸ List.mem_cons_of_mem _ hx)
    rw [takeWhile_digit_nil (l := f) hf]
    cases f with
    | nil => simp
    | cons d r => simp
  · rfl

theorem splitPlus_ne_nil : ∀ l : List Char, splitPlus l ≠ []
  | [] => by simp [splitPlus]
  | c :: t => by
    unfold splitPlus
    by_cases hc : c = '+'
    · rw [if_pos hc]; simp
    · rw [if_neg hc]
      cases hs : splitPlus t with
      | nil => simp
      | cons p ps => simp

theorem mem_splitPlus {c : Char} : ∀ {l : List Char} {piece : List Char},
    piece ∈ splitPlus l → c ∈ piece → c ∈ l
  | [], piece, hp, hc => by
    simp only [splitPlus, List.mem_singleton] at hp
    subst hp
    cases hc
  | x :: t, piece, hp, hc => by
    unfold splitPlus at hp
    by_cases hx : x = '+'
    · rw [if_pos hx] at hp
      rcases List.mem_cons.mp hp with h' | h'
      · subst h'; cases hc
      · exact List.mem_cons_of_mem _ (mem_splitPlus h' hc)
    · rw [if_neg hx] at hp
      cases hs : splitPlus t with
      | nil => exact absurd hs (splitPlus_ne_nil t)
      | cons p ps =>
        rw [hs] at hp
        rcases List.mem_cons.mp hp with h' | h'
        · subst h'
          rcases List.mem_cons.mp hc with h'' | h''
          · rw [h'']; exact List.mem_cons_self _ _
          · exact List.mem_cons_of_mem _
              (mem_splitPlus (hs ▸ List.mem_cons_self p ps) h'')
        · exact List.mem_cons_of_mem _
            (mem_splitPlus (hs ▸ List.mem_cons_of_mem p h') hc)

theorem priceFromSum_none {t : List Char} (h : ∀ c ∈ t, isDigitC c = false) :
    priceFromSum t = none := by
  simp only [priceFromSum]
  split
  · split
    · have hclean : ∀ c ∈ t.filter keepSumChar, isDigitC c = false :=
        fun c hc => h c (List.mem_of_mem_filter hc)
      cases hs : splitPlus (t.filter keepSumChar) with
      | nil => exact absurd hs (splitPlus_ne_nil _)
      | cons p ps =>
        have hp : parsePyFloat p = none :=
          parsePyFloat_none (fun c hc => hclean c (mem_splitPlus (hs ▸ List.mem_cons_self p ps) hc))
        simp [List.mapM, List.mapM.loop, hp]
    · rfl
  · rfl

theorem scanNum_none_of_nodigit : ∀ {l : List Char},
    (∀ c ∈ l, isDigitC c = false) → scanNum l = none
  | [], _ => rfl
  | c :: t, h => by
    unfold scanNum
    rw [if_neg (by simp [h c (List.mem_cons_self _ _)])]
    exact scanNum_none_of_nodigit (fun x hx => h x (List.mem_cons_of_mem _ hx))

theorem commaMap_nodigit {s : List Char} (h : ∀ c ∈ s, isDigitC c = false) :
    ∀ c ∈ s.map (fun c => if c = ',' then '.' else c), isDigitC c = false := by
  intro c hc
  rcases List.mem_map.mp hc with ⟨x, hx, hmap⟩
  by_cases hx' : x = ','
  · rw [if_pos hx'] at hmap; rw [← hmap]; rfl
  · rw [if_neg hx'] at hmap; rw [← hmap]; exact h x hx

/-- When the input contains no digit at all, every branch of
`extract_price` falls through to the `"0.00"` fallback. -/
theorem extract_price_nodigit {s : List Char} (h : ∀ c ∈ s, isDigitC c = false) :
    extract_price s = "0.00".data := by
  simp only [extract_price]
  have ht : ∀ c ∈ pyStripWs (s.map (fun c => if c = ',' then '.' else c)),
      isDigitC c = false := pyStripWs_nodigit (commaMap_nodigit h)
  rw [show priceFromEq (pyStripWs (s.map (fun c => if c = ',' then '.' else c))) = none by
      simp only [priceFromEq]; rw [scanEq_none_of_nodigit ht]; rfl]
  rw [priceFromSum_none ht]
  rw [show priceFromNum (pyStripWs (s.map (fun c => if c = ',' then '.' else c))) = none by
      simp only [priceFromNum]; rw [scanNum_none_of_nodigit ht]; rfl]

theorem scanEq_append {u : List Char} (hu : ∀ c ∈ u, c ≠ '=') :
    ∀ x : List Char, scanEq (u ++ x) = scanEq x := by
  induction u with
  | nil => intro x; rfl
  | cons c t ih =>
    intro x
    have hc := hu c (List.mem_cons_self _ _)
    show scanEq (c :: (t ++ x)) = scanEq x
    conv_lhs => unfold scanEq
    rw [if_neg hc]
    exact ih (fun y hy => hu y (List.mem_cons_of_mem _ hy)) x

theorem scanEq_cons_eq {v g : List Char} (hg : parseEqNum v = some g) :
    scanEq ('=' :: v) = some g := by
  unfold scanEq
  rw [if_pos rfl, hg]

theorem scanEq_none_of_no_eq : ∀ {l : List Char},
    (∀ c ∈ l, c ≠ '=') → scanEq l = none
  | [], _ => rfl
  | c :: t, h => by
    unfold scanEq
    rw [if_neg (h c (List.mem_cons_self _ _))]
    exact scanEq_none_of_no_eq (fun x hx => h x (List.mem_cons_of_mem _ hx))

theorem contains_false_of_not_mem {l : List Char} {a : Char}
    (h : ∀ c ∈ l, c ≠ a) : l.contains a = false := by
  induction l with
  | nil => rfl
  | cons c t ih =>
    simp only [List.contains_cons, Bool.or_eq_false_iff]
    exact ⟨by simpa [beq_eq_false_iff_ne] using (h c (List.mem_cons_self _ _)).symm,
      ih (fun x hx => h x (List.mem_cons_of_mem _ hx))⟩

theorem scanNum_append {u : List Char} (hu : ∀ c ∈ u, isDigitC c = false) :
    ∀ r : List Char, scanNum (u ++ r) = scanNum r := by
  induction u with
  | nil => intro r; rfl
  | cons c t ih =>
    intro r
    show scanNum (c :: (t ++ r)) = scanNum r
    conv_lhs => unfold scanNum
    rw [if_neg (by simp [hu c (List.mem_cons_self _ _)])]
    exact ih (fun y hy => hu y (List.mem_cons_of_mem _ hy)) r

/-! ### Claims C2 and C7 -/

/-- Claim C2, counterexample: on a string from which no number is
recoverable the price parser returns the non-empty zero string
`"0.00"`, not the empty value the spec demands. -/
theorem C2_counterexample :
    extract_price "abc".data = "0.00".data ∧ "0.00".data ≠ ([] : List Char) := by
  constructor
  · decide
  · decide

/-- Claim C2 as amended: on every string input containing no digit (so
no number is recoverable), `extract_price` returns the zero string
`"0.00"` — never an error, but also never the empty value; the caller
treats `"0.00"` (not emptiness) as the use-a-fallback sentinel. -/
theorem C2_amended (s : List Char) (h : ∀ c ∈ s, isDigitC c = false) :
    extract_price s = "0.00".data :=
  extract_price_nodigit h

/-- Witness for C2 as amended at the digit-free input `"prix da"`. -/
theorem C2_amended_witness :
    (∀ c ∈ "prix da".data, isDigitC c = false) ∧
      extract_price "prix da".data = "0.00".data :=
  ⟨by decide, C2_amended _ (by decide)⟩

/-- Claim C7, counterexample: the parser uses `re.search`, which finds
the first match, not the last.  `"1=2=3"` parses to the number after the
first `=` (`"2.00"`, not `"3.00"`), and the plain fallback on
`"ref 123 prix 45.6"` takes the first number-like substring (`"123.00"`,
not `"45.60"`). -/
theorem C7_counterexample :
    extract_price "1=2=3".data = "2.00".data ∧ "2.00".data ≠ "3.00".data ∧
      extract_price "ref 123 prix 45.6".data = "123.00".data ∧
      "123.00".data ≠ "45.60".data := by
  refine ⟨by decide, by decide, by decide, by decide⟩

/-- Claim C7 as amended: when the input contains an `=` followed by a
number, the parser takes the number after the *first* such `=`
(later `=` signs and anything after them are ignored); when it falls
through to plain extraction, it takes the *first* number-like substring
(after any digit-free prefix), not the last. -/
theorem C7_amended :
    (∀ u v g : List Char, ∀ q : ℚ,
      pyStripWs ((u ++ '=' :: v).map (fun c => if c = ',' then '.' else c)) =
        u ++ '=' :: v →
      (∀ c ∈ u, c ≠ '=') → parseEqNum v = some g → parsePyFloat g = some q →
      extract_price (u ++ '=' :: v) = fmtTwoDec q) ∧
    (∀ u r m : List Char, ∀ q : ℚ,
      pyStripWs ((u ++ r).map (fun c => if c = ',' then '.' else c)) = u ++ r →
      (∀ c ∈ u, isDigitC c = false) → (∀ c ∈ u ++ r, c ≠ '=') →
      (∀ c ∈ u ++ r, c ≠ '+') → scanNum r = some m → parsePyFloat m = some q →
      extract_price (u ++ r) = fmtTwoDec q) := by
  constructor
  · intro u v g q hpre hu hg hq
    simp only [extract_price]
    rw [hpre]
    simp only [priceFromEq, scanEq_append hu, scanEq_cons_eq hg, Option.some_bind, hq]
    rfl
  · intro u r m q hpre hu heq hplus hm hq
    simp only [extract_price]
    rw [hpre]
    simp only [priceFromEq, scanEq_none_of_no_eq heq, Option.none_bind]
    simp only [priceFromSum, contains_false_of_not_mem hplus, Bool.false_eq_true,
      if_false]
    simp only [priceFromNum, scanNum_append hu, hm, Option.some_bind, hq]
    rfl

/-- Witness for C7 as amended: the first `=` wins in `"a=1=2"`
(result `1.00`), and the first number wins in `"ab 12"` (result
`12.00`). -/
theorem C7_amended_witness :
    extract_price "a=1=2".data = fmtTwoDec (mkRat 1 1) ∧
      extract_price "ab 12".data = fmtTwoDec (mkRat 12 1) :=
  ⟨C7_amended.1 "a".data "1=2".data "1".data (mkRat 1 1)
      (by decide) (by decide) (by decide) (by decide),
    C7_amended.2 "ab ".data "12".data "12".data (mkRat 12 1)
      (by decide) (by decide) (by decide) (by decide) (by decide) (by decide)⟩

/-! ### Claims C9 and C10 -/

/-- Claim C9: resolution is deterministic.  The matching core
(api.py lines 171-209) reads only its inputs and the immutable
module-level catalog maps; it calls no randomness source and keeps no
mutable state, so its shallow embedding is a pure function, and two
calls on the same observation and catalog snapshot return identical
outcomes. -/
theorem C9_deterministic (obs : Obs) (rows : List Row) :
    process_image_data obs rows = process_image_data obs rows := rfl

/-- Claim C10: the zero price string is a sentinel.  When the
observation's price parses to exactly `"0.00"` (which is also what every
no-number input parses to, see `extract_price`), `get_response` replaces
it with the price parsed from the matched catalog row's own `PPA` field;
any other parsed observation price is passed through verbatim, so a
successful outcome can surface `"0.00"` only via the catalog side. -/
theorem C10_zero_price_sentinel (obs : Obs) (row : Row) (score : ℤ)
    (status : List Char) :
    (extract_price obs.ppa = "0.00".data →
      (get_response (extract_price obs.ppa) row score status).ppa =
        extract_price row.ppa) ∧
    (extract_price obs.ppa ≠ "0.00".data →
      (get_response (extract_price obs.ppa) row score status).ppa =
        extract_price obs.ppa) := by
  constructor
  · intro h
    simp [get_response, h]
  · intro h
    simp [get_response, h]

/-- Witness for C10: an observation with an empty price field parses to
the `"0.00"` sentinel, and the outcome's price comes from the catalog
row (`extract_price "650.00" = "650.00"`); with price `"42.00"` the
observation's own parsed price survives. -/
theorem C10_zero_price_sentinel_witness :
    (get_response (extract_price ([] : List Char))
        ⟨"XYLOCARD".data, "LIDOCAINE".data, "5 G/20ML".data, "B/1".data,
          "SOLUTION".data, "650.00".data⟩ 100 stDosExact).ppa =
      extract_price "650.00".data ∧
    (get_response (extract_price "42.00".data)
        ⟨"XYLOCARD".data, "LIDOCAINE".data, "5 G/20ML".data, "B/1".data,
          "SOLUTION".data, "650.00".data⟩ 100 stDosExact).ppa =
      extract_price "42.00".data :=
  ⟨(C10_zero_price_sentinel ⟨[], [], [], []⟩ _ 100 stDosExact).1 (by decide),
   (C10_zero_price_sentinel ⟨[], [], [], "42.00".data⟩ _ 100 stDosExact).2 (by decide)⟩

/-! ### Claim C1 -/

/-- Claim C1, counterexample: the code has no full-signature stage.
For the catalog entry DOLIPRANE 1000 MG BTE 8 and an observation whose
dosage field carries the whole label text, the spec-side full-signature
token-set score is 100 (≥ 85, which per the claim must yield a
`Verified` outcome), yet the resolver fails at its name gate with
score 0 and never produces any verified outcome. -/
theorem C1_counterexample :
    85 ≤ spec_stage1_score
        ⟨"XXXX".data, "DOLIPRANE 1000 MG".data, "BTE 8".data, "450.00".data⟩
        ⟨"DOLIPRANE".data, "PARACETAMOL".data, "1000 MG".data, "BTE 8".data,
          "COMP".data, "250.00".data⟩ ∧
    process_image_data
        ⟨"XXXX".data, "DOLIPRANE 1000 MG".data, "BTE 8".data, "450.00".data⟩
        [⟨"DOLIPRANE".data, "PARACETAMOL".data, "1000 MG".data, "BTE 8".data,
          "COMP".data, "250.00".data⟩] =
      some (.fail stReco (gateMsg 0)) := by
  constructor
  · decide
  · decide

/-- Claim C1 as amended: the first stage the resolver runs is a
name-only gate, not a full-signature match: it fuzzy-scores the
observation's name signature against every key of the name index with a
token-set scorer, and whenever the best score is below 80 it returns a
failure carrying that score, short-circuiting every later stage.  There
is no full-record index and no ≥ 85 full-signature acceptance. -/
theorem C1_amended (obs : Obs) (rows : List Row) (bn : List Char) (sn : ℤ)
    (hsig : (normalize_string obs.nom).isEmpty = false)
    (hx : extractOne token_set_score (normalize_string obs.nom)
        ((dbNamesMap rows).map Prod.fst) = some (bn, sn))
    (hlt : sn < 80) :
    process_image_data obs rows = some (.fail stReco (gateMsg sn)) := by
  simp only [process_image_data, hsig, Bool.false_eq_true, if_false, hx]
  rw [if_pos hlt]

/-- Witness for C1 as amended: a garbage name against the XYLOCARD
catalog scores 0 and the resolver fails at the gate. -/
theorem C1_amended_witness :
    process_image_data ⟨"ZZZZ".data, [], [], []⟩
        [⟨"XYLOCARD".data, "LIDOCAINE".data, "5 G/20ML".data, "B/1".data,
          "SOLUTION".data, "650.00".data⟩] =
      some (.fail stReco (gateMsg 0)) :=
  C1_amended _ _ "xylocard".data 0 (by decide) (by decide) (by decide)

/-! ### Claim C5 -/

/-- Claim C5, counterexample: the spec's own example.  The catalog has
exactly one variant named XYLOCARD; the observation's name "XYLOCRAD"
(one-letter typo) passes the name gate with score 88 and the matched
name has exactly one variant, yet with no usable dosage/packaging the
resolver does not accept it: there is no unique-variant shortcut, the
single variant still has to win the details stage (WRatio ≥ 75), and an
empty details signature scores 0, so the outcome is a failure, not
`AutoCorrected`. -/
theorem C5_counterexample :
    extractOne token_set_score (normalize_string "XYLOCRAD".data)
        ((dbNamesMap [⟨"XYLOCARD".data, "LIDOCAINE".data, "5 G/20ML".data,
          "B/1".data, "SOLUTION".data, "650.00".data⟩]).map Prod.fst) =
      some ("xylocard".data, 88) ∧
    List.lookup "xylocard".data
        (dbNamesMap [⟨"XYLOCARD".data, "LIDOCAINE".data, "5 G/20ML".data,
          "B/1".data, "SOLUTION".data, "650.00".data⟩]) =
      some [⟨"XYLOCARD".data, "LIDOCAINE".data, "5 G/20ML".data,
        "B/1".data, "SOLUTION".data, "650.00".data⟩] ∧
    process_image_data ⟨"XYLOCRAD".data, [], [], []⟩
        [⟨"XYLOCARD".data, "LIDOCAINE".data, "5 G/20ML".data, "B/1".data,
          "SOLUTION".data, "650.00".data⟩] =
      some (.fail stReco msgNoMatch) := by
  refine ⟨by decide, by decide, by decide⟩

/-- Claim C5 as amended: when the name gate passes (score ≥ 80), the
matched name has exactly one variant, and the observation has no
numeric dosage, the resolver accepts that single variant as
`Auto-Corrigé` only when the observation's combined dosage+packaging
signature scores at least 75 under WRatio against the variant's details
signature; the confidence is then the 0.6/0.4 blend, not an unconditional
acceptance (an observation with no usable details fails instead). -/
theorem C5_amended (obs : Obs) (rows : List Row) (bn k dsig : List Char) (sn sd : ℤ)
    (d : Row)
    (hsig : (normalize_string obs.nom).isEmpty = false)
    (hx : extractOne token_set_score (normalize_string obs.nom)
        ((dbNamesMap rows).map Prod.fst) = some (bn, sn))
    (hge : ¬ sn < 80)
    (hlk : List.lookup bn (dbNamesMap rows) = some [d])
    (hq : extract_numeric_dosage obs.dosage = none)
    (hk : normalize_string (build_reference_string d false true) = k)
    (hdsig : normalize_string (obs.dosage ++ ' ' :: obs.conditionnement) = dsig)
    (hdx : extractOne wratio_score dsig [k] = some (k, sd))
    (hsd : 75 ≤ sd) :
    process_image_data obs rows =
      some (.ok (get_response (extract_price obs.ppa) d (finalScore sn sd) stAuto)) := by
  simp only [process_image_data, hsig, Bool.false_eq_true, if_false, hx]
  rw [if_neg hge]
  simp only [hlk, hq]
  simp only [detailsStage]
  rw [show buildLastWins (([d] : List Row).map
      (fun x => (normalize_string (build_reference_string x false true), x))) =
      [(normalize_string (build_reference_string d false true), d)] from rfl]
  rw [hk, hdsig]
  simp only [List.isEmpty_cons, Bool.false_eq_true, if_false, List.map_cons, List.map_nil,
    hdx]
  rw [if_pos hsd]
  simp [List.lookup]

/-- Witness for C5 as amended: XYLOCRAD with packaging "B/1" (but no
dosage) resolves to the single XYLOCARD variant with the blended score
⌊0.6·88 + 0.4·90⌋ = 88. -/
theorem C5_amended_witness :
    process_image_data ⟨"XYLOCRAD".data, [], "B/1".data, "0.00".data⟩
        [⟨"XYLOCARD".data, "LIDOCAINE".data, "5 G/20ML".data, "B/1".data,
          "SOLUTION".data, "650.00".data⟩] =
      some (.ok (get_response (extract_price "0.00".data)
        ⟨"XYLOCARD".data, "LIDOCAINE".data, "5 G/20ML".data, "B/1".data,
          "SOLUTION".data, "650.00".data⟩ (finalScore 88 90) stAuto)) :=
  C5_amended _ _ "xylocard".data "5 g 20ml b 1".data "b 1".data 88 90 _
    (by decide) (by decide) (by decide) (by decide) (by decide) (by decide)
    (by decide) (by decide) (by decide)

/-! ### Claim C8 -/

/-- Claim C8: during variant disambiguation with a defined numeric
dosage, a unique variant whose numeric dosage exactly equals the
observation's is returned directly (score 100); when several variants
tie on numeric dosage and the observation's packaging contains numbers,
a unique variant whose packaging unit-count multiset (compared sorted)
equals the observation's is returned next (score 100), before any text
scoring runs. -/
theorem C8_dosage_preference (obs : Obs) (rows : List Row) (bn : List Char)
    (sn : ℤ) (cands : List Row) (q : ℚ)
    (hsig : (normalize_string obs.nom).isEmpty = false)
    (hx : extractOne token_set_score (normalize_string obs.nom)
        ((dbNamesMap rows).map Prod.fst) = some (bn, sn))
    (hge : ¬ sn < 80)
    (hlk : List.lookup bn (dbNamesMap rows) = some cands)
    (hq : extract_numeric_dosage obs.dosage = some q) :
    (∀ d : Row, cands.filter (fun r => decide (rowDosageNumeric r = some q)) = [d] →
      process_image_data obs rows =
        some (.ok (get_response (extract_price obs.ppa) d 100 stDosExact))) ∧
    (∀ (d1 d2 : Row) (rest : List Row) (p : Row),
      cands.filter (fun r => decide (rowDosageNumeric r = some q)) = d1 :: d2 :: rest →
      (extract_numbers_from_string obs.conditionnement).isEmpty = false →
      (d1 :: d2 :: rest).filter (fun r =>
        !(extract_numbers_from_string r.presentation).isEmpty &&
        decide (sortNat (extract_numbers_from_string obs.conditionnement) =
          sortNat (extract_numbers_from_string r.presentation))) = [p] →
      process_image_data obs rows =
        some (.ok (get_response (extract_price obs.ppa) p 100 stCond))) := by
  constructor
  · intro d hfil
    simp only [process_image_data, hsig, Bool.false_eq_true, if_false, hx]
    rw [if_neg hge]
    simp only [hlk, hq, hfil]
    simp only [dosageStage]
  · intro d1 d2 rest p hfil hnum hposs
    simp only [process_image_data, hsig, Bool.false_eq_true, if_false, hx]
    rw [if_neg hge]
    simp only [hlk, hq, hfil]
    simp only [dosageStage, hnum, Bool.false_eq_true, if_false, hposs]

/-- Witness for C8: with variants DOLIPRANE 500 MG and 1000 MG, dosage
"1000 MG" selects the 1000 MG variant directly; with two 1000 MG
variants packaged B/8 and B/30, packaging "B/30" selects the B/30
variant by unit-count multiset. -/
theorem C8_dosage_preference_witness :
    process_image_data ⟨"DOLIPRANE".data, "1000 MG".data, [], "0.00".data⟩
        [⟨"DOLIPRANE".data, "PARACETAMOL".data, "500 MG".data, "B/8".data,
          "COMP".data, "150.00".data⟩,
         ⟨"DOLIPRANE".data, "PARACETAMOL".data, "1000 MG".data, "B/8".data,
          "COMP".data, "250.00".data⟩] =
      some (.ok (get_response (extract_price "0.00".data)
        ⟨"DOLIPRANE".data, "PARACETAMOL".data, "1000 MG".data, "B/8".data,
          "COMP".data, "250.00".data⟩ 100 stDosExact)) ∧
    process_image_data ⟨"DOLIPRANE".data, "1000".data, "B/30".data, "0.00".data⟩
        [⟨"DOLIPRANE".data, "PARACETAMOL".data, "1000 MG".data, "B/8".data,
          "COMP".data, "250.00".data⟩,
         ⟨"DOLIPRANE".data, "PARACETAMOL".data, "1000 MG".data, "B/30".data,
          "COMP".data, "450.00".data⟩] =
      some (.ok (get_response (extract_price "0.00".data)
        ⟨"DOLIPRANE".data, "PARACETAMOL".data, "1000 MG".data, "B/30".data,
          "COMP".data, "450.00".data⟩ 100 stCond)) :=
  ⟨(C8_dosage_preference _ _ "doliprane".data 100
      [⟨"DOLIPRANE".data, "PARACETAMOL".data, "500 MG".data, "B/8".data,
        "COMP".data, "150.00".data⟩,
       ⟨"DOLIPRANE".data, "PARACETAMOL".data, "1000 MG".data, "B/8".data,
        "COMP".data, "250.00".data⟩] (mkRat 1000 1)
      (by decide) (by decide) (by decide) (by decide) (by decide)).1
      ⟨"DOLIPRANE".data, "PARACETAMOL".data, "1000 MG".data, "B/8".data,
        "COMP".data, "250.00".data⟩ (by decide),
   (C8_dosage_preference _ _ "doliprane".data 100
      [⟨"DOLIPRANE".data, "PARACETAMOL".data, "1000 MG".data, "B/8".data,
        "COMP".data, "250.00".data⟩,
       ⟨"DOLIPRANE".data, "PARACETAMOL".data, "1000 MG".data, "B/30".data,
        "COMP".data, "450.00".data⟩] (mkRat 1000 1)
      (by decide) (by decide) (by decide) (by decide) (by decide)).2
      ⟨"DOLIPRANE".data, "PARACETAMOL".data, "1000 MG".data, "B/8".data,
        "COMP".data, "250.00".data⟩
      ⟨"DOLIPRANE".data, "PARACETAMOL".data, "1000 MG".data, "B/30".data,
        "COMP".data, "450.00".data⟩ []
      ⟨"DOLIPRANE".data, "PARACETAMOL".data, "1000 MG".data, "B/30".data,
        "COMP".data, "450.00".data⟩ (by decide) (by decide) (by decide)⟩

/-! ### Claim C6 -/

/-- Every early return of the numeric-dosage block is a successful
`get_response` dictionary, never a failure. -/
theorem dosageStage_ok {obs : Obs} {pp : List Char} {ex : List Row} {r : Resp}
    (h : dosageStage obs pp ex = some r) : ∃ mk, r = Resp.ok mk := by
  rcases ex with _ | ⟨d1, _ | ⟨d2, rest⟩⟩
  · simp [dosageStage] at h
  · simp only [dosageStage, Option.some_inj] at h
    exact ⟨_, h.symm⟩
  · simp only [dosageStage] at h
    split at h
    · rename_i r1 heq
      rw [Option.some_inj] at h
      split at heq
      · cases heq
      · split at heq
        · rw [Option.some_inj] at heq
          exact ⟨_, by rw [← h, ← heq]⟩
        · cases heq
    · split at h
      · cases h
      · split at h
        · cases h
        · split at h
          · split at h
            · exact ⟨_, (Option.some_inj.mp h).symm⟩
            · cases h
          · cases h

/-- Every failure returned by the details stage is one of the two fixed
status/details pairs; it carries no observation field. -/
theorem detailsStage_fail {obs : Obs} {pp : List Char} {sn : ℤ} {l : List Row}
    {st dt : List Char}
    (h : detailsStage obs pp sn l = some (.fail st dt)) :
    st = stReco ∧ (dt = msgNoCand ∨ dt = msgNoMatch) := by
  unfold detailsStage at h
  split at h
  · have := Option.some_inj.mp h
    cases this
    exact ⟨rfl, Or.inl rfl⟩
  · split at h
    · cases h
    · split at h
      · split at h
        · have := Option.some_inj.mp h
          cases this
        · cases h
      · have := Option.some_inj.mp h
        cases this
        exact ⟨rfl, Or.inr rfl⟩

/-- Claim C6, counterexample: an observation that no stage accepts gets
back only a fixed status and details string.  Neither the candidate
name, dosage, packaging, price, nor the best name score (here 100)
occurs anywhere in the returned failure — the raw observation is
discarded, contradicting the claim that it is carried verbatim. -/
theorem C6_counterexample :
    process_image_data
        ⟨"DOLIPRANE".data, "9999 MG".data, "ZZZZ".data, "123.45".data⟩
        [⟨"DOLIPRANE".data, "PARACETAMOL".data, "1000 MG".data, "BTE 8".data,
          "COMP".data, "250.00".data⟩] =
      some (.fail stReco msgNoMatch) ∧
    hasSubstring "DOLIPRANE".data (stReco ++ msgNoMatch) = false ∧
    hasSubstring "9999".data (stReco ++ msgNoMatch) = false ∧
    hasSubstring "ZZZZ".data (stReco ++ msgNoMatch) = false ∧
    hasSubstring "123.45".data (stReco ++ msgNoMatch) = false ∧
    hasSubstring "100".data (stReco ++ msgNoMatch) = false := by
  refine ⟨by decide, by decide, by decide, by decide, by decide, by decide⟩

/-- Claim C6 as amended: when no stage accepts, the resolver returns a
failure dictionary holding only a status and a details message, drawn
from a fixed set: the missing-name message, the name-gate message (the
only one carrying any score), the no-candidates message, or the final
no-reliable-match message.  The raw observation fields are not included
in the outcome. -/
theorem C6_amended (obs : Obs) (rows : List Row) (st dt : List Char)
    (h : process_image_data obs rows = some (.fail st dt)) :
    (st = stEchec ∧ dt = msgNoName) ∨
    (st = stReco ∧
      ((∃ n : ℤ, dt = gateMsg n) ∨ dt = msgNoCand ∨ dt = msgNoMatch)) := by
  unfold process_image_data at h
  split at h
  · have := Option.some_inj.mp h
    cases this
    exact Or.inl ⟨rfl, rfl⟩
  · split at h
    · cases h
    · rename_i bn sn heq
      split at h
      · have := Option.some_inj.mp h
        cases this
        exact Or.inr ⟨rfl, Or.inl ⟨sn, rfl⟩⟩
      · split at h
        · cases h
        · split at h
          · rcases detailsStage_fail h with ⟨h1, h2⟩
            exact Or.inr ⟨h1, Or.inr h2⟩
          · split at h
            · rename_i r heq
              rcases dosageStage_ok heq with ⟨mk, hmk⟩
              rw [hmk] at h
              cases Option.some_inj.mp h
            · rcases detailsStage_fail h with ⟨h1, h2⟩
              exact Or.inr ⟨h1, Or.inr h2⟩

/-- Witness for C6 as amended: a name-gate failure instantiates the
enumeration with the gate message at score 0. -/
theorem C6_amended_witness :
    (stReco = stEchec ∧ gateMsg 0 = msgNoName) ∨
    (stReco = stReco ∧
      ((∃ n : ℤ, gateMsg 0 = gateMsg n) ∨ gateMsg 0 = msgNoCand ∨
        gateMsg 0 = msgNoMatch)) :=
  C6_amended ⟨"QQQQ".data, [], [], []⟩
    [⟨"DOLIPRANE".data, "PARACETAMOL".data, "1000 MG".data, "BTE 8".data,
      "COMP".data, "250.00".data⟩] stReco (gateMsg 0) (by decide)

end PrescriptionApi
